import Mathlib

/-
Shallow embedding of the botbuilder-mongo-storage package
(src/src/mongoStore.ts), a two-tier key-value state store:
a durable MongoDB collection plus an optional Redis cache.

Modelling conventions:
- JS objects and the Mongo collection are modelled as association lists
  (insertion order preserved, as in JS object key order and Mongo natural
  order); property assignment is `setAssoc`.
- JSON.stringify / JSON.parse are an external serializer pair, out of scope
  for this repository; they are modelled as the identity embedding of a
  JSON value into its serialized form (`Serialized := Json`), which is
  faithful up to text encoding since parse inverts stringify.
- Backend calls that can reject are modelled with `Except JsError`.
- Fresh ObjectId hex tokens are modelled by a token stream `tokens : Nat → String`
  consumed in iteration order; `new Date()` is a `now : Nat` parameter.
-/

/-- First-match lookup in an association list (JS property read,
`Array.prototype.find` style). -/
def getAssoc {α : Type} : List (String × α) → String → Option α
  | [], _ => none
  | p :: l, k => if p.1 = k then some p.2 else getAssoc l k

/-- JS property assignment on an object modelled as an association list:
replaces the first binding of the key in place, otherwise appends. -/
def setAssoc {α : Type} : List (String × α) → String → α → List (String × α)
  | [], k, v => [(k, v)]
  | p :: l, k, v => if p.1 = k then (k, v) :: l else p :: setAssoc l k v

/-- Last-match lookup, used to reason about repeated assignments
(last write wins). -/
def getLastAssoc {α : Type} : List (String × α) → String → Option α
  | [], _ => none
  | p :: l, k =>
    match getLastAssoc l k with
    | some v => some v
    | none => if p.1 = k then some p.2 else none

/-- `Object.assign(target, src)`: assigns every binding of `src` onto
`target`, in order. -/
def objAssign {α : Type} (target src : List (String × α)) : List (String × α) :=
  src.foldl (fun accum p => setAssoc accum p.1 p.2) target

/-- JSON values (the payloads this store treats opaquely). -/
inductive Json where
  | null
  | bool (b : Bool)
  | num (n : Int)
  | str (s : String)
  | arr (items : List Json)
  | obj (fields : List (String × Json))

/-- Whether a JSON value is an object (JS property assignment on a
non-object primitive is a silent no-op). -/
def Json.isObj : Json → Bool
  | .obj _ => true
  | _ => false

/-- JS property assignment `j[name] = v`. -/
def Json.setField : Json → String → Json → Json
  | .obj fields, name, v => .obj (setAssoc fields name v)
  | j, _, _ => j

/-- JS property read `j[name]` (undefined is `none`). -/
def Json.getField : Json → String → Option Json
  | .obj fields, name => getAssoc fields name
  | _, _ => none

/-- Serialized JSON text, identified with the JSON value it denotes
(the external serializer pair is lossless on JSON values). -/
abbrev Serialized : Type := Json

/-- JSON.stringify (external library, modelled as the canonical embedding). -/
def JSON.stringify (j : Json) : Serialized := j

/-- JSON.parse (external library, inverse of stringify). -/
def JSON.parse (s : Serialized) : Json := s

-- ------------------------------------------------------------------
-- Association list lemmas
-- ------------------------------------------------------------------

theorem getAssoc_setAssoc {α : Type} (l : List (String × α)) (k : String) (v : α)
    (k' : String) :
    getAssoc (setAssoc l k v) k' = if k' = k then some v else getAssoc l k' := by
  induction l with
  | nil =>
    by_cases h : k' = k
    · subst h; simp [setAssoc, getAssoc]
    · simp only [setAssoc, getAssoc, if_neg h, if_neg (Ne.symm h)]
  | cons p l ih =>
    simp only [setAssoc]
    by_cases h1 : p.1 = k
    · rw [if_pos h1]
      by_cases h2 : k' = k
      · simp only [getAssoc, if_pos (h2.symm), if_pos h2]
      · have hp : ¬ k = k' := Ne.symm h2
        have hp' : ¬ p.1 = k' := h1 ▸ hp
        simp only [getAssoc, if_neg hp, if_neg h2, if_neg hp']
    · rw [if_neg h1]
      by_cases h2 : p.1 = k'
      · have hk : ¬ k' = k := fun hc => h1 (h2.trans hc)
        simp only [getAssoc, if_pos h2, if_neg hk]
      · simp only [getAssoc, if_neg h2, ih]

theorem getAssoc_append {α : Type} (l₁ l₂ : List (String × α)) (k : String) :
    getAssoc (l₁ ++ l₂) k =
      match getAssoc l₁ k with
      | some v => some v
      | none => getAssoc l₂ k := by
  induction l₁ with
  | nil => simp [getAssoc]
  | cons p l ih =>
    by_cases h : p.1 = k
    · simp [getAssoc, h]
    · simp only [List.cons_append, getAssoc, if_neg h]
      exact ih

theorem getAssoc_eq_none_iff {α : Type} (l : List (String × α)) (k : String) :
    getAssoc l k = none ↔ k ∉ l.map Prod.fst := by
  induction l with
  | nil => simp [getAssoc]
  | cons p l ih =>
    by_cases h : p.1 = k
    · simp [getAssoc, h]
    · simp [getAssoc, h, ih, not_or, Ne.symm h]

theorem getAssoc_isSome_iff {α : Type} (l : List (String × α)) (k : String) :
    (getAssoc l k).isSome ↔ k ∈ l.map Prod.fst := by
  rcases hg : getAssoc l k with _ | v
  · simp [((getAssoc_eq_none_iff l k).1 hg)]
  · have : ¬ getAssoc l k = none := by simp [hg]
    rw [getAssoc_eq_none_iff] at this
    simp [hg, not_not.mp this]

theorem getLastAssoc_eq_none_iff {α : Type} (l : List (String × α)) (k : String) :
    getLastAssoc l k = none ↔ k ∉ l.map Prod.fst := by
  induction l with
  | nil => simp [getLastAssoc]
  | cons p l ih =>
    simp only [getLastAssoc, List.map_cons, List.mem_cons, not_or]
    rcases hg : getLastAssoc l k with _ | v
    · have hnl : k ∉ l.map Prod.fst := ih.1 hg
      by_cases h : p.1 = k
      · simp [h]
      · simp [h, Ne.symm h, hnl]
    · have hl : k ∈ l.map Prod.fst := by
        by_contra hc
        rw [← ih] at hc
        rw [hc] at hg
        exact Option.noConfusion hg
      simp [hl]

theorem getLastAssoc_eq_getAssoc {α : Type} (l : List (String × α)) (k : String)
    (h : (l.map Prod.fst).Nodup) : getLastAssoc l k = getAssoc l k := by
  induction l with
  | nil => rfl
  | cons p l ih =>
    simp only [List.map_cons, List.nodup_cons] at h
    by_cases hk : p.1 = k
    · have : getLastAssoc l k = none := by
        rw [getLastAssoc_eq_none_iff]
        rw [hk] at h; exact h.1
      simp [getLastAssoc, getAssoc, this, hk]
    · have := ih h.2
      simp only [getLastAssoc, getAssoc, if_neg hk, this]
      rcases getAssoc l k with _ | v <;> simp [hk]

/-- Keys of `setAssoc l k v` are among `k` and the keys of `l`. -/
theorem mem_map_fst_setAssoc {α : Type} (l : List (String × α)) (k : String) (v : α)
    (k' : String) (h : k' ∈ (setAssoc l k v).map Prod.fst) :
    k' = k ∨ k' ∈ l.map Prod.fst := by
  induction l with
  | nil => simp [setAssoc] at h; exact Or.inl h
  | cons p l ih =>
    by_cases hp : p.1 = k
    · simp only [setAssoc, if_pos hp, List.map_cons, List.mem_cons] at h
      rcases h with h | h
      · exact Or.inl h
      · exact Or.inr (by simp [h])
    · simp only [setAssoc, if_neg hp, List.map_cons, List.mem_cons] at h
      rcases h with h | h
      · exact Or.inr (by simp [h])
      · rcases ih h with h | h
        · exact Or.inl h
        · exact Or.inr (by simp [h])

theorem nodup_map_fst_setAssoc {α : Type} (l : List (String × α)) (k : String) (v : α)
    (h : (l.map Prod.fst).Nodup) : ((setAssoc l k v).map Prod.fst).Nodup := by
  induction l with
  | nil => simp [setAssoc]
  | cons p l ih =>
    simp only [List.map_cons, List.nodup_cons] at h
    by_cases hp : p.1 = k
    · simp only [setAssoc, if_pos hp, List.map_cons, List.nodup_cons]
      exact ⟨by rw [← hp]; exact h.1, h.2⟩
    · simp only [setAssoc, if_neg hp, List.map_cons, List.nodup_cons]
      refine ⟨fun hc => ?_, ih h.2⟩
      rcases mem_map_fst_setAssoc l k v p.1 hc with hc | hc
      · exact hp hc
      · exact h.1 hc

/-- Folding `setAssoc` with a value transformation: last assignment wins,
earlier accumulator content is the fallback. -/
theorem getAssoc_foldl_setAssoc {α β : Type} (f : α → β) (s : List (String × α))
    (c₀ : List (String × β)) (k : String) :
    getAssoc (s.foldl (fun c p => setAssoc c p.1 (f p.2)) c₀) k =
      match getLastAssoc s k with
      | some v => some (f v)
      | none => getAssoc c₀ k := by
  induction s generalizing c₀ with
  | nil => rfl
  | cons p s ih =>
    simp only [List.foldl_cons]
    rw [ih]
    cases hg : getLastAssoc s k with
    | none =>
      by_cases h : p.1 = k
      · simp [getLastAssoc, hg, getAssoc_setAssoc, h]
      · simp [getLastAssoc, hg, getAssoc_setAssoc, h, Ne.symm h]
    | some v => simp [getLastAssoc, hg]

theorem nodup_map_fst_foldl_setAssoc {α β : Type} (f : α → β) (s : List (String × α))
    (c₀ : List (String × β)) (h : (c₀.map Prod.fst).Nodup) :
    ((s.foldl (fun c p => setAssoc c p.1 (f p.2)) c₀).map Prod.fst).Nodup := by
  induction s generalizing c₀ with
  | nil => exact h
  | cons p s ih => exact ih _ (nodup_map_fst_setAssoc _ _ _ h)

theorem getAssoc_objAssign {α : Type} (t s : List (String × α)) (k : String) :
    getAssoc (objAssign t s) k =
      match getLastAssoc s k with
      | some v => some v
      | none => getAssoc t k :=
  getAssoc_foldl_setAssoc (fun v => v) s t k

/-- Lookup commutes with filtering by a key predicate. -/
theorem getAssoc_filter {α : Type} (l : List (String × α)) (q : String → Bool)
    (k : String) :
    getAssoc (l.filter (fun p => q p.1)) k =
      if q k then getAssoc l k else none := by
  induction l with
  | nil => simp [getAssoc]
  | cons p l ih =>
    rw [List.filter_cons]
    by_cases hq : q p.1
    · rw [if_pos hq]
      by_cases hp : p.1 = k
      · subst hp
        simp [getAssoc, hq]
      · simp only [getAssoc, if_neg hp]
        rw [ih]
    · rw [if_neg hq]
      rw [ih]
      by_cases hp : p.1 = k
      · subst hp
        simp [Bool.eq_false_iff.mpr hq]
      · by_cases hk : q k
        · simp [hk, getAssoc, hp]
        · simp [hk]

theorem getAssoc_map_values {α β : Type} (l : List (String × α)) (g : α → β)
    (k : String) :
    getAssoc (l.map (fun p => (p.1, g p.2))) k = (getAssoc l k).map g := by
  induction l with
  | nil => rfl
  | cons p l ih =>
    by_cases h : p.1 = k
    · simp [getAssoc, h]
    · simp [getAssoc, h, ih]

theorem getField_setField (v : Json) (name : String) (x : Json)
    (h : v.isObj = true) : (v.setField name x).getField name = some x := by
  cases v <;> simp [Json.isObj] at h
  case obj fields =>
    simp [Json.setField, Json.getField, getAssoc_setAssoc]

-- ------------------------------------------------------------------
-- Data model (src/src/mongoStore.ts lines 5 to 28)
-- ------------------------------------------------------------------

/-- An entry of the `conversations` collection: `_id` is the assoc key,
the remaining fields are the document body (lines 23 to 28). `etag` is
the value of `state.eTag` read back after stamping; it is undefined
(`none`) when the payload is not an object. -/
structure MongoStoreDocument where
  state : Serialized
  date : Nat
  etag : Option Json

/-- The durable collection, keyed by `_id`. -/
abbrev MongoState : Type := List (String × MongoStoreDocument)

/-- A cache entry: serialized value plus the EX expiry it was set with. -/
structure RedisEntry where
  value : Serialized
  ex : Nat

/-- The Redis keyspace. -/
abbrev RedisState : Type := List (String × RedisEntry)

/-- `StoreItems`: a JS object mapping state keys to payloads. -/
abbrev StoreItems : Type := List (String × Json)

/-- Construction options (lines 5 to 12). `redis := true` means redis
connection options were supplied (their content is passed through
opaquely and not modelled). -/
structure MongoStoreOptions where
  database : Option String
  collection : Option String
  redis : Bool
  cacheExpiration : Option Nat
  disableWriteConcern : Option Bool

/-- Errors surfaced by the JS runtime or a backend client. -/
inductive JsError where
  | typeError
  | backend (msg : String)

/-- The configuration state resolved by the constructor, immutable for
the lifetime of the store (lines 30 to 88). -/
structure MongoStoreConfig where
  dbName : String
  colName : String
  isCacheEnabled : Bool
  cacheExpiration : Nat
  disableWriteConcern : Bool

def MongoStore.DEFAULT_DATABASE_NAME : String := "botstorage"

def MongoStore.DEFAULT_COLLECTION_NAME : String := "conversations"

def MongoStore.DEFAULT_CACHE_EXPIRATION_TIME : Nat := 1209600

/-- The constructor (lines 61 to 88): throws when the uri is missing or
blank, resolves defaults, and enables the cache exactly when redis
options are present. `options.cacheExpiration || DEFAULT` treats the
falsy 0 as absent, and `options.disableWriteConcern || false` defaults
the flag to false. -/
def MongoStore.mkStore (uri : String) (options : MongoStoreOptions) :
    Except JsError MongoStoreConfig :=
  if uri.trim = "" then Except.error (JsError.backend "MongoStore.uri is required.")
  else Except.ok
    { dbName :=
        match options.database with
        | some database =>
            if database.trim = "" then MongoStore.DEFAULT_DATABASE_NAME else database.trim
        | none => MongoStore.DEFAULT_DATABASE_NAME
      colName :=
        match options.collection with
        | some collection =>
            if collection.trim = "" then MongoStore.DEFAULT_COLLECTION_NAME else collection.trim
        | none => MongoStore.DEFAULT_COLLECTION_NAME
      isCacheEnabled := options.redis
      cacheExpiration :=
        match options.cacheExpiration with
        | some n => if n = 0 then MongoStore.DEFAULT_CACHE_EXPIRATION_TIME else n
        | none => MongoStore.DEFAULT_CACHE_EXPIRATION_TIME
      disableWriteConcern := options.disableWriteConcern.getD false }

-- ------------------------------------------------------------------
-- Durable-store and cache primitives
-- ------------------------------------------------------------------

/-- The write concern attached to mongo bulk writes and deletes. -/
inductive WriteConcern where
  | w0
  | majority

/-- The write concern chosen on lines 226 and 238:
`!this.disableWriteConcern ? w 0 : w majority`. -/
def MongoStore.writeConcernOf (cfg : MongoStoreConfig) : WriteConcern :=
  if !cfg.disableWriteConcern then WriteConcern.w0 else WriteConcern.majority

/-- One `updateOne` upsert operation pushed on lines 211 to 223. -/
structure UpdateOneOp where
  filterKey : String
  state : Serialized
  date : Nat
  etag : Option Json

/-- The single batched `bulkWrite` request of line 225. -/
structure BulkWriteCall where
  operations : List UpdateOneOp
  writeConcern : WriteConcern

/-- The `deleteMany` request of lines 236 to 239. -/
structure DeleteManyCall where
  keys : List String
  writeConcern : WriteConcern

/-- `redis.get(key)`: the serialized value if present. -/
def redisGet (cache : RedisState) (k : String) : Option Serialized :=
  (getAssoc cache k).map RedisEntry.value

/-- `updateOne` updates the first document matching the filter. -/
def updateFirst (m : MongoState) (k : String) (d : MongoStoreDocument) : MongoState :=
  match m with
  | [] => []
  | p :: rest => if p.1 = k then (k, d) :: rest else p :: updateFirst rest k d

/-- Effect of one upsert on the collection: replace the matching
document if one exists, insert otherwise. -/
def applyUpsert (m : MongoState) (op : UpdateOneOp) : MongoState :=
  if m.any (fun p => decide (p.1 = op.filterKey)) then
    updateFirst m op.filterKey ⟨op.state, op.date, op.etag⟩
  else m ++ [(op.filterKey, ⟨op.state, op.date, op.etag⟩)]

/-- Effect of the batched `bulkWrite` on the collection, in operation
order. -/
def applyBulkWrite (m : MongoState) (c : BulkWriteCall) : MongoState :=
  c.operations.foldl applyUpsert m

/-- Effect of `deleteMany` with an `$in` filter. -/
def applyDeleteMany (m : MongoState) (c : DeleteManyCall) : MongoState :=
  m.filter (fun p => !decide (p.1 ∈ c.keys))

-- ------------------------------------------------------------------
-- Read path (lines 122 to 139, 161 to 194)
-- ------------------------------------------------------------------

/-- Result of `readRedis`: the hits and the keys the cache reported
absent. -/
structure ReadRedisResult where
  cached : List (String × Json)
  missing : List String

/-- `readRedis` (lines 161 to 184): parallel `cache.get` per key, then a
reduce that parses hits into `cached` and pushes misses onto `missing`. -/
def MongoStore.readRedis (cache : RedisState) (stateKeys : List String) :
    ReadRedisResult :=
  (stateKeys.map (fun key => (key, redisGet cache key))).foldl
    (fun accum p =>
      match p.2 with
      | some value => { accum with cached := setAssoc accum.cached p.1 (JSON.parse value) }
      | none => { accum with missing := accum.missing ++ [p.1] })
    ⟨[], []⟩

/-- `readMongo` (lines 186 to 194): one `find` with an `$in` filter over
the key set, then a reduce keyed by `_id` parsing each stored state. -/
def MongoStore.readMongo (mongo : MongoState) (stateKeys : List String) :
    List (String × Json) :=
  (mongo.filter (fun p => decide (p.1 ∈ stateKeys))).foldl
    (fun accum p => setAssoc accum p.1 (JSON.parse p.2.state)) []

/-- `read` (lines 122 to 139): empty key set short-circuits; with the
cache enabled, cache hits are assigned first and the missing set, when
non-empty, is fetched from mongo in one batch; otherwise one batched
mongo lookup serves all keys. -/
def MongoStore.read (cfg : MongoStoreConfig) (mongo : MongoState) (cache : RedisState)
    (stateKeys : List String) : List (String × Json) :=
  if stateKeys.isEmpty then []
  else if cfg.isCacheEnabled then
    let rr := MongoStore.readRedis cache stateKeys
    let states := objAssign [] rr.cached
    if rr.missing.length > 0 then
      objAssign states (MongoStore.readMongo mongo rr.missing)
    else states
  else objAssign [] (MongoStore.readMongo mongo stateKeys)

-- ------------------------------------------------------------------
-- Write path (lines 142 to 151, 196 to 228)
-- ------------------------------------------------------------------

/-- The eTag stamping loop of lines 208 to 210: for each entry, in key
order, `state.eTag = new ObjectId().toHexString()` mutates the payload
in place; the fresh hex tokens are modelled as the stream `tokens`,
consumed at the index recorded in the first argument. -/
def stampETagsFrom (tokens : Nat → String) : Nat → StoreItems → StoreItems
  | _, [] => []
  | i, (key, state) :: rest =>
      (key, state.setField "eTag" (Json.str (tokens i))) :: stampETagsFrom tokens (i + 1) rest

/-- eTag stamping over a whole changes object. -/
def stampETags (tokens : Nat → String) (changes : StoreItems) : StoreItems :=
  stampETagsFrom tokens 0 changes

/-- The `updateOne` operations pushed on lines 211 to 223, built from
the already-stamped entries: serialize the mutated state, record the
date and the `state.eTag` value just written. -/
def opsOf (now : Nat) : StoreItems → List UpdateOneOp
  | [] => []
  | (key, state) :: rest =>
      ⟨key, JSON.stringify state, now, state.getField "eTag"⟩ :: opsOf now rest

/-- `writeMongo` (lines 206 to 228): stamps a fresh eTag into every
payload (mutating the caller-visible objects), then issues one
`bulkWrite` of upserts with the configured write concern. Returns the
mutated changes object and the batched request. -/
def MongoStore.writeMongo (cfg : MongoStoreConfig) (changes : StoreItems)
    (tokens : Nat → String) (now : Nat) : StoreItems × BulkWriteCall :=
  let stamped := stampETags tokens changes
  (stamped, ⟨opsOf now stamped, MongoStore.writeConcernOf cfg⟩)

/-- `writeRedis` (lines 196 to 204): `cache.set(key, stringify(state),
EX cacheExpiration)` for every entry. By the time each set argument is
evaluated the eTag stamping of `writeMongo` has already run, so the
argument passed here is the stamped changes object. -/
def MongoStore.writeRedis (cfg : MongoStoreConfig) (cache : RedisState)
    (changes : StoreItems) : RedisState :=
  changes.foldl
    (fun c p => setAssoc c p.1 ⟨JSON.stringify p.2, cfg.cacheExpiration⟩) cache

/-- Outcome of `write`: the caller-supplied changes object after the
call (write mutates it by stamping eTags), and both backend states. -/
structure WriteOutcome where
  changes : StoreItems
  mongo : MongoState
  cache : RedisState

/-- `write` (lines 142 to 151): empty changes are a no-op; otherwise the
mongo bulk upsert always runs and the redis set-many runs only when the
cache is enabled, both started in the same turn and awaited together. -/
def MongoStore.write (cfg : MongoStoreConfig) (mongo : MongoState) (cache : RedisState)
    (changes : StoreItems) (tokens : Nat → String) (now : Nat) : WriteOutcome :=
  if changes.isEmpty then ⟨changes, mongo, cache⟩
  else
    let wm := MongoStore.writeMongo cfg changes tokens now
    let mongo' := applyBulkWrite mongo wm.2
    let cache' := if cfg.isCacheEnabled then MongoStore.writeRedis cfg cache wm.1 else cache
    ⟨wm.1, mongo', cache'⟩

-- ------------------------------------------------------------------
-- Delete path (lines 154 to 159, 230 to 240)
-- ------------------------------------------------------------------

/-- The `deleteMany` call issued by `deleteMongo` (lines 235 to 240). -/
def MongoStore.deleteMongoCall (cfg : MongoStoreConfig) (stateKeys : List String) :
    DeleteManyCall :=
  ⟨stateKeys, MongoStore.writeConcernOf cfg⟩

/-- `deleteRedis` (lines 230 to 233): `this.cache.del(key)` per key.
The `cache` getter returns `this.rClient`, which is only ever assigned
when redis options were supplied (line 84 to 87); with caching disabled
the property access `this.cache.del` is on undefined and rejects with a
TypeError. -/
def MongoStore.deleteRedis (cfg : MongoStoreConfig) (cache : RedisState)
    (stateKeys : List String) : Except JsError RedisState :=
  if cfg.isCacheEnabled then
    Except.ok (stateKeys.foldl (fun c k => c.filter (fun p => !decide (p.1 = k))) cache)
  else Except.error JsError.typeError

/-- Outcome of `delete`: the reported result and both backend states
(the mongo deleteMany is started in the same turn as deleteRedis, so it
takes effect even when deleteRedis rejects). -/
structure DeleteOutcome where
  result : Except JsError Unit
  mongo : MongoState
  cache : RedisState

/-- `delete` (lines 154 to 159): empty key set is a no-op; otherwise
`Promise.all([deleteRedis(keys), deleteMongo(keys)])` — deleteRedis is
invoked unconditionally, with no cache-enabled guard. -/
def MongoStore.delete (cfg : MongoStoreConfig) (mongo : MongoState) (cache : RedisState)
    (keys : List String) : DeleteOutcome :=
  if keys.isEmpty then ⟨Except.ok (), mongo, cache⟩
  else
    let mongo' := applyDeleteMany mongo (MongoStore.deleteMongoCall cfg keys)
    match MongoStore.deleteRedis cfg cache keys with
    | Except.ok cache' => ⟨Except.ok (), mongo', cache'⟩
    | Except.error e => ⟨Except.error e, mongo', cache⟩

-- ------------------------------------------------------------------
-- Health (lines 243 to 264)
-- ------------------------------------------------------------------

/-- The reply object of the mongo `command(ping 1)` admin call; `ok`
is the truthiness of `mongoResponse.ok`. -/
structure MongoPingReply where
  ok : Bool

/-- The composite health result (lines 19 to 21). -/
structure IPingResponse where
  ok : Nat
  mongo : Nat
  redis : Option Nat

/-- `health` (lines 243 to 264), parameterized by the behaviour of the
two probes. The mongo ping is awaited with no try or catch, so a
rejection propagates (line 245). Line 246 then evaluates
`this.rClient.ping()` unconditionally: when caching is disabled the
handle was never assigned and the property access throws a TypeError;
when caching is enabled the returned promise is discarded. The guarded
probe of lines 251 to 257 awaits the redis ping, whose rejection also
propagates. -/
def MongoStore.health (cfg : MongoStoreConfig)
    (mongoPing : Except JsError MongoPingReply)
    (redisPing : Except JsError String) : Except JsError IPingResponse :=
  match mongoPing with
  | Except.error e => Except.error e
  | Except.ok mongoResponse =>
    if !cfg.isCacheEnabled then Except.error JsError.typeError
    else
      let pingMongo : Nat := if mongoResponse.ok then 1 else 0
      match redisPing with
      | Except.error e => Except.error e
      | Except.ok redisResponse =>
        let pingRedis : Nat := if redisResponse = "" then 0 else 1
        let okv : Nat := if pingRedis = 0 then 0 else pingMongo
        Except.ok ⟨okv, pingMongo, some pingRedis⟩

-- ------------------------------------------------------------------
-- Cache call traces (which redis commands each path issues)
-- ------------------------------------------------------------------

/-- A redis command issued by the orchestrator. -/
inductive CacheCall where
  | get (key : String)
  | set (key : String) (value : Serialized) (ex : Nat)
  | del (key : String)

/-- The redis commands issued by `read`: with the cache enabled,
`readRedis` issues one `cache.get` per requested key (line 165) and
`readMongo` issues none; with the cache disabled, or on an empty key
set, no redis command is issued at all. -/
def MongoStore.readCacheCalls (cfg : MongoStoreConfig) (stateKeys : List String) :
    List CacheCall :=
  if stateKeys.isEmpty then []
  else if cfg.isCacheEnabled then stateKeys.map CacheCall.get
  else []

/-- Effect of a redis command on the keyspace: `get` reads only. -/
def applyCacheCall (cache : RedisState) : CacheCall → RedisState
  | CacheCall.get _ => cache
  | CacheCall.set k v ex => setAssoc cache k ⟨v, ex⟩
  | CacheCall.del k => cache.filter (fun p => !decide (p.1 = k))

-- ------------------------------------------------------------------
-- Settlement model for the concurrent write fan-out (lines 146 to 150)
-- ------------------------------------------------------------------

/-- A backend operation that settles at an abstract time with either a
resolution or a rejection. -/
structure SettledOp where
  time : Nat
  result : Except JsError Unit

/-- `Promise.all` over two operations: resolves at the later resolution
time when both resolve; rejects with the first rejection to settle,
at that rejection time, without waiting for the sibling. -/
def promiseAll2 (p q : SettledOp) : SettledOp :=
  match p.result, q.result with
  | Except.ok _, Except.ok _ => ⟨max p.time q.time, Except.ok ()⟩
  | Except.error e, Except.ok _ => ⟨p.time, Except.error e⟩
  | Except.ok _, Except.error e => ⟨q.time, Except.error e⟩
  | Except.error e₁, Except.error e₂ =>
      if p.time ≤ q.time then ⟨p.time, Except.error e₁⟩ else ⟨q.time, Except.error e₂⟩

/-- How `write` settles (lines 146 to 150): the mongo bulk upsert is
always awaited; the redis set-many joins the `Promise.all` only when
the cache is enabled. -/
def MongoStore.writeSettle (cfg : MongoStoreConfig) (mongoOp redisOp : SettledOp) :
    SettledOp :=
  if cfg.isCacheEnabled then promiseAll2 mongoOp redisOp else mongoOp

-- ------------------------------------------------------------------
-- Lemmas about the write path
-- ------------------------------------------------------------------

theorem stampETagsFrom_map_fst (tokens : Nat → String) (n : Nat) (l : StoreItems) :
    (stampETagsFrom tokens n l).map Prod.fst = l.map Prod.fst := by
  induction l generalizing n with
  | nil => rfl
  | cons p rest ih =>
    cases p with
    | mk key state => simp [stampETagsFrom, ih]

theorem stampETagsFrom_getAssoc (tokens : Nat → String) (l : StoreItems) (n i : Nat)
    (hN : (l.map Prod.fst).Nodup) (hi : i < l.length) :
    getAssoc (stampETagsFrom tokens n l) (l.get ⟨i, hi⟩).1
      = some (Json.setField (l.get ⟨i, hi⟩).2 "eTag" (Json.str (tokens (n + i)))) := by
  induction l generalizing n i with
  | nil => exact absurd hi (by simp)
  | cons p rest ih =>
    cases p with
    | mk key state =>
      simp only [List.map_cons, List.nodup_cons] at hN
      cases i with
      | zero =>
        simp [stampETagsFrom, getAssoc]
      | succ j =>
        have hj : j < rest.length := Nat.lt_of_succ_lt_succ hi
        have hmem : ((key, state) :: rest).get ⟨j + 1, hi⟩ = rest.get ⟨j, hj⟩ := rfl
        rw [hmem]
        have hkmem : (rest.get ⟨j, hj⟩).1 ∈ rest.map Prod.fst :=
          List.mem_map_of_mem Prod.fst (List.get_mem rest j hj)
        have hne : ¬ key = (rest.get ⟨j, hj⟩).1 := by
          intro hc; rw [hc] at hN; exact hN.1 hkmem
        simp only [stampETagsFrom, getAssoc, if_neg hne]
        rw [ih (n + 1) j hN.2 hj]
        have harith : n + 1 + j = n + (j + 1) := by omega
        rw [harith]

/-- The last upsert operation in the batch matching a filter key. -/
def lastOp : List UpdateOneOp → String → Option UpdateOneOp
  | [], _ => none
  | op :: l, k =>
    match lastOp l k with
    | some o => some o
    | none => if op.filterKey = k then some op else none

theorem opsOf_map_filterKey (now : Nat) (s : StoreItems) :
    (opsOf now s).map UpdateOneOp.filterKey = s.map Prod.fst := by
  induction s with
  | nil => rfl
  | cons p rest ih =>
    cases p with
    | mk key state => simp [opsOf, ih]

theorem lastOp_opsOf (now : Nat) (s : StoreItems) (k : String) :
    lastOp (opsOf now s) k =
      (getLastAssoc s k).map
        (fun v => ⟨k, JSON.stringify v, now, Json.getField v "eTag"⟩) := by
  induction s with
  | nil => rfl
  | cons p rest ih =>
    cases p with
    | mk key state =>
      simp only [opsOf, lastOp, getLastAssoc, ih]
      cases hg : getLastAssoc rest k with
      | some v => rfl
      | none =>
        by_cases h : key = k
        · subst h; simp
        · simp [h]

theorem updateFirst_get (m : MongoState) (k : String) (d : MongoStoreDocument)
    (k' : String) :
    getAssoc (updateFirst m k d) k' =
      if k' = k ∧ k ∈ m.map Prod.fst then some d else getAssoc m k' := by
  induction m with
  | nil => simp [updateFirst]
  | cons p rest ih =>
    by_cases hp : p.1 = k
    · simp only [updateFirst, if_pos hp]
      by_cases h2 : k' = k
      · subst h2
        simp [getAssoc, hp]
      · have hpk : ¬ p.1 = k' := fun hc => h2 ((hc.symm.trans hp))
        simp [getAssoc, h2, Ne.symm h2, hpk]
    · simp only [updateFirst, if_neg hp]
      by_cases h2 : p.1 = k'
      · have hk : ¬ k' = k := fun hc => hp (h2.trans hc)
        simp [getAssoc, h2, hk]
      · simp only [getAssoc, if_neg h2, ih]
        by_cases h3 : k' = k ∧ k ∈ rest.map Prod.fst
        · rw [if_pos h3, if_pos ⟨h3.1, by simp [h3.2]⟩]
        · rw [if_neg h3, if_neg ?_]
          rintro ⟨hk, hmem⟩
          simp only [List.map_cons, List.mem_cons] at hmem
          rcases hmem with hm | hm
          · exact hp hm.symm
          · exact h3 ⟨hk, hm⟩

theorem map_fst_updateFirst (m : MongoState) (k : String) (d : MongoStoreDocument) :
    (updateFirst m k d).map Prod.fst = m.map Prod.fst := by
  induction m with
  | nil => rfl
  | cons p rest ih =>
    by_cases hp : p.1 = k
    · simp [updateFirst, hp]
    · simp [updateFirst, hp, ih]

theorem any_key_iff {α : Type} (m : List (String × α)) (k : String) :
    (m.any (fun p => decide (p.1 = k)) = true) ↔ k ∈ m.map Prod.fst := by
  rw [List.any_eq_true]
  constructor
  · rintro ⟨p, hp, hd⟩
    exact List.mem_map.mpr ⟨p, hp, of_decide_eq_true hd⟩
  · intro h
    rcases List.mem_map.1 h with ⟨p, hp, he⟩
    exact ⟨p, hp, decide_eq_true he⟩

theorem applyUpsert_get (m : MongoState) (op : UpdateOneOp) (k' : String) :
    getAssoc (applyUpsert m op) k' =
      if k' = op.filterKey then some ⟨op.state, op.date, op.etag⟩
      else getAssoc m k' := by
  by_cases hany : m.any (fun p => decide (p.1 = op.filterKey)) = true
  · have hmem : op.filterKey ∈ m.map Prod.fst := (any_key_iff m op.filterKey).1 hany
    simp only [applyUpsert, if_pos hany, updateFirst_get]
    by_cases h : k' = op.filterKey
    · rw [if_pos ⟨h, hmem⟩, if_pos h]
    · rw [if_neg (fun hc => h hc.1), if_neg h]
  · have hmem : op.filterKey ∉ m.map Prod.fst := fun hc =>
      hany ((any_key_iff m op.filterKey).2 hc)
    simp only [applyUpsert, if_neg hany, getAssoc_append]
    by_cases h : k' = op.filterKey
    · have hnone : getAssoc m k' = none := (getAssoc_eq_none_iff m k').2 (by rw [h]; exact hmem)
      rw [hnone, if_pos h]
      simp [getAssoc, h]
    · rw [if_neg h]
      cases hg : getAssoc m k' with
      | some v => simp [hg]
      | none => simp [getAssoc, Ne.symm h]

theorem applyUpsert_nodup (m : MongoState) (op : UpdateOneOp)
    (h : (m.map Prod.fst).Nodup) : ((applyUpsert m op).map Prod.fst).Nodup := by
  by_cases hany : m.any (fun p => decide (p.1 = op.filterKey)) = true
  · simp only [applyUpsert, if_pos hany, map_fst_updateFirst]
    exact h
  · have hmem : op.filterKey ∉ m.map Prod.fst := fun hc =>
      hany ((any_key_iff m op.filterKey).2 hc)
    simp only [applyUpsert, if_neg hany, List.map_append]
    rw [List.nodup_append]
    refine ⟨h, by simp, ?_⟩
    intro a ha hb
    simp at hb
    rw [hb] at ha
    exact hmem ha

theorem foldl_applyUpsert_get (ops : List UpdateOneOp) (m : MongoState) (k : String) :
    getAssoc (ops.foldl applyUpsert m) k =
      match lastOp ops k with
      | some op => some ⟨op.state, op.date, op.etag⟩
      | none => getAssoc m k := by
  induction ops generalizing m with
  | nil => rfl
  | cons op rest ih =>
    simp only [List.foldl_cons, lastOp]
    rw [ih]
    cases hg : lastOp rest k with
    | some o => rfl
    | none =>
      simp only [applyUpsert_get]
      by_cases h : op.filterKey = k
      · simp [h]
      · simp [h, Ne.symm h]

theorem foldl_applyUpsert_nodup (ops : List UpdateOneOp) (m : MongoState)
    (h : (m.map Prod.fst).Nodup) : ((ops.foldl applyUpsert m).map Prod.fst).Nodup := by
  induction ops generalizing m with
  | nil => exact h
  | cons op rest ih => exact ih _ (applyUpsert_nodup m op h)

-- ------------------------------------------------------------------
-- Lemmas about the read path
-- ------------------------------------------------------------------

theorem readRedis_aux_missing (cache : RedisState) (keys : List String)
    (acc : ReadRedisResult) :
    (keys.foldl
      (fun accum key =>
        match redisGet cache key with
        | some value => { accum with cached := setAssoc accum.cached key (JSON.parse value) }
        | none => { accum with missing := accum.missing ++ [key] })
      acc).missing
      = acc.missing ++ keys.filter (fun k => (redisGet cache k).isNone) := by
  induction keys generalizing acc with
  | nil => simp
  | cons k₀ rest ih =>
    simp only [List.foldl_cons, List.filter_cons]
    cases hg : redisGet cache k₀ with
    | some v =>
      rw [ih]
      simp [hg]
    | none =>
      rw [ih]
      simp [hg, List.append_assoc]

theorem readRedis_aux_cached (cache : RedisState) (keys : List String)
    (acc : ReadRedisResult) (k : String) :
    getAssoc
      ((keys.foldl
        (fun accum key =>
          match redisGet cache key with
          | some value => { accum with cached := setAssoc accum.cached key (JSON.parse value) }
          | none => { accum with missing := accum.missing ++ [key] })
        acc).cached) k
      = if k ∈ keys ∧ (redisGet cache k).isSome
        then (redisGet cache k).map JSON.parse
        else getAssoc acc.cached k := by
  induction keys generalizing acc with
  | nil => simp
  | cons k₀ rest ih =>
    simp only [List.foldl_cons]
    cases hg : redisGet cache k₀ with
    | some v =>
      rw [ih]
      by_cases hr : k ∈ rest ∧ (redisGet cache k).isSome
      · rw [if_pos hr, if_pos ⟨List.mem_cons_of_mem _ hr.1, hr.2⟩]
      · rw [if_neg hr]
        by_cases hk : k = k₀
        · subst hk
          rw [if_pos ⟨List.mem_cons_self _ _, by simp [hg]⟩]
          simp [getAssoc_setAssoc, hg]
        · rw [if_neg ?_]
          · simp [getAssoc_setAssoc, hk]
          · rintro ⟨hmem, hsome⟩
            rcases List.mem_cons.1 hmem with hm | hm
            · exact hk hm
            · exact hr ⟨hm, hsome⟩
    | none =>
      rw [ih]
      by_cases hr : k ∈ rest ∧ (redisGet cache k).isSome
      · rw [if_pos hr, if_pos ⟨List.mem_cons_of_mem _ hr.1, hr.2⟩]
      · rw [if_neg hr, if_neg ?_]
        rintro ⟨hmem, hsome⟩
        rcases List.mem_cons.1 hmem with hm | hm
        · rw [hm, hg] at hsome
          simp at hsome
        · exact hr ⟨hm, hsome⟩

theorem readRedis_aux_cached_nodup (cache : RedisState) (keys : List String)
    (acc : ReadRedisResult) (h : (acc.cached.map Prod.fst).Nodup) :
    (((keys.foldl
      (fun accum key =>
        match redisGet cache key with
        | some value => { accum with cached := setAssoc accum.cached key (JSON.parse value) }
        | none => { accum with missing := accum.missing ++ [key] })
      acc).cached).map Prod.fst).Nodup := by
  induction keys generalizing acc with
  | nil => exact h
  | cons k₀ rest ih =>
    simp only [List.foldl_cons]
    cases hg : redisGet cache k₀ with
    | some v => exact ih _ (nodup_map_fst_setAssoc _ _ _ h)
    | none => exact ih _ h

theorem readRedis_missing (cache : RedisState) (keys : List String) :
    (MongoStore.readRedis cache keys).missing
      = keys.filter (fun k => (redisGet cache k).isNone) := by
  have hmap : MongoStore.readRedis cache keys
      = keys.foldl
          (fun accum key =>
            match redisGet cache key with
            | some value => { accum with cached := setAssoc accum.cached key (JSON.parse value) }
            | none => { accum with missing := accum.missing ++ [key] })
          ⟨[], []⟩ := by
    unfold MongoStore.readRedis
    rw [List.foldl_map]
  rw [hmap, readRedis_aux_missing cache keys ⟨[], []⟩]
  simp

theorem readRedis_cached_get (cache : RedisState) (keys : List String) (k : String) :
    getAssoc (MongoStore.readRedis cache keys).cached k
      = if k ∈ keys ∧ (redisGet cache k).isSome
        then (redisGet cache k).map JSON.parse
        else none := by
  have hmap : MongoStore.readRedis cache keys
      = keys.foldl
          (fun accum key =>
            match redisGet cache key with
            | some value => { accum with cached := setAssoc accum.cached key (JSON.parse value) }
            | none => { accum with missing := accum.missing ++ [key] })
          ⟨[], []⟩ := by
    unfold MongoStore.readRedis
    rw [List.foldl_map]
  rw [hmap, readRedis_aux_cached cache keys ⟨[], []⟩ k]
  rfl

theorem readRedis_cached_nodup (cache : RedisState) (keys : List String) :
    ((MongoStore.readRedis cache keys).cached.map Prod.fst).Nodup := by
  have hmap : MongoStore.readRedis cache keys
      = keys.foldl
          (fun accum key =>
            match redisGet cache key with
            | some value => { accum with cached := setAssoc accum.cached key (JSON.parse value) }
            | none => { accum with missing := accum.missing ++ [key] })
          ⟨[], []⟩ := by
    unfold MongoStore.readRedis
    rw [List.foldl_map]
  rw [hmap]
  exact readRedis_aux_cached_nodup cache keys ⟨[], []⟩ (by simp)

theorem readMongo_get_of_not_mem (mongo : MongoState) (ks : List String) (k : String)
    (hk : k ∉ ks) : getAssoc (MongoStore.readMongo mongo ks) k = none := by
  unfold MongoStore.readMongo
  rw [getAssoc_foldl_setAssoc (fun d => JSON.parse d.state)
    (mongo.filter (fun p => decide (p.1 ∈ ks))) [] k]
  have hnone : getLastAssoc (mongo.filter (fun p => decide (p.1 ∈ ks))) k = none := by
    rw [getLastAssoc_eq_none_iff]
    intro hc
    rcases List.mem_map.1 hc with ⟨p, hp, he⟩
    have hmem := List.of_mem_filter hp
    rw [he] at hmem
    exact hk (of_decide_eq_true hmem)
  rw [hnone]
  rfl

theorem readMongo_get (mongo : MongoState) (ks : List String) (k : String)
    (hm : (mongo.map Prod.fst).Nodup) :
    getAssoc (MongoStore.readMongo mongo ks) k =
      if k ∈ ks then (getAssoc mongo k).map (fun d => JSON.parse d.state) else none := by
  unfold MongoStore.readMongo
  rw [getAssoc_foldl_setAssoc (fun d => JSON.parse d.state)
    (mongo.filter (fun p => decide (p.1 ∈ ks))) [] k]
  have hnd : ((mongo.filter (fun p => decide (p.1 ∈ ks))).map Prod.fst).Nodup :=
    hm.sublist ((List.filter_sublist mongo).map Prod.fst)
  rw [getLastAssoc_eq_getAssoc _ _ hnd]
  rw [getAssoc_filter mongo (fun s => decide (s ∈ ks)) k]
  by_cases hk : k ∈ ks
  · rw [if_pos (decide_eq_true hk), if_pos hk]
    cases hg : getAssoc mongo k with
    | some d => rfl
    | none => rfl
  · rw [if_neg (by simpa using hk), if_neg hk]
    rfl

theorem writeRedis_get (cfg : MongoStoreConfig) (cache : RedisState)
    (changes : StoreItems) (k : String) :
    getAssoc (MongoStore.writeRedis cfg cache changes) k =
      match getLastAssoc changes k with
      | some v => some ⟨JSON.stringify v, cfg.cacheExpiration⟩
      | none => getAssoc cache k := by
  unfold MongoStore.writeRedis
  rw [getAssoc_foldl_setAssoc
    (fun v => (⟨JSON.stringify v, cfg.cacheExpiration⟩ : RedisEntry)) changes cache k]
  cases hg : getLastAssoc changes k with
  | none => rfl
  | some v => rfl

theorem stampETags_map_fst (tokens : Nat → String) (M : StoreItems) :
    (stampETags tokens M).map Prod.fst = M.map Prod.fst :=
  stampETagsFrom_map_fst tokens 0 M

/-- The document stored for a key after the bulk upsert of `writeMongo`:
the serialized stamped payload when the key was written, the prior
content otherwise. -/
theorem applyBulkWrite_writeMongo_get (cfg : MongoStoreConfig) (M : StoreItems)
    (tokens : Nat → String) (now : Nat) (mongo : MongoState) (k : String)
    (hM : (M.map Prod.fst).Nodup) :
    getAssoc (applyBulkWrite mongo (MongoStore.writeMongo cfg M tokens now).2) k =
      match getAssoc (stampETags tokens M) k with
      | some v => some ⟨JSON.stringify v, now, Json.getField v "eTag"⟩
      | none => getAssoc mongo k := by
  have hnd : ((stampETags tokens M).map Prod.fst).Nodup := by
    rw [stampETags_map_fst]; exact hM
  show getAssoc ((opsOf now (stampETags tokens M)).foldl applyUpsert mongo) k = _
  rw [foldl_applyUpsert_get, lastOp_opsOf, getLastAssoc_eq_getAssoc _ _ hnd]
  cases getAssoc (stampETags tokens M) k with
  | some v => rfl
  | none => rfl

theorem applyBulkWrite_writeMongo_nodup (cfg : MongoStoreConfig) (M : StoreItems)
    (tokens : Nat → String) (now : Nat) (mongo : MongoState)
    (hmongo : (mongo.map Prod.fst).Nodup) :
    ((applyBulkWrite mongo (MongoStore.writeMongo cfg M tokens now).2).map Prod.fst).Nodup :=
  foldl_applyUpsert_nodup _ mongo hmongo

/-- What the cache holds for a key after `writeRedis` on the stamped
changes (duplicate-free changes object). -/
theorem redisGet_writeRedis (cfg : MongoStoreConfig) (cache : RedisState)
    (s : StoreItems) (k : String) (hs : (s.map Prod.fst).Nodup) :
    redisGet (MongoStore.writeRedis cfg cache s) k =
      match getAssoc s k with
      | some v => some (JSON.stringify v)
      | none => redisGet cache k := by
  unfold redisGet
  rw [writeRedis_get, getLastAssoc_eq_getAssoc _ _ hs]
  cases getAssoc s k with
  | some v => rfl
  | none => rfl

theorem readMongo_nodup (mongo : MongoState) (ks : List String) :
    ((MongoStore.readMongo mongo ks).map Prod.fst).Nodup := by
  unfold MongoStore.readMongo
  exact nodup_map_fst_foldl_setAssoc _ _ [] (by simp)

-- ------------------------------------------------------------------
-- Claim theorems
-- ------------------------------------------------------------------

/-- C5: for every mapping M from keys to payloads, write(M) followed by
read over the keys of M returns a mapping with exactly the same keys,
whose payload content equals what was written with the injected version
token, whether or not the cache tier is enabled. -/
theorem mongoStore_write_read_roundtrip (cfg : MongoStoreConfig) (mongo : MongoState)
    (cache : RedisState) (M : StoreItems) (tokens : Nat → String) (now : Nat)
    (hM : (M.map Prod.fst).Nodup) (hmongo : (mongo.map Prod.fst).Nodup) :
    (∀ k, getAssoc (MongoStore.read cfg
        (MongoStore.write cfg mongo cache M tokens now).mongo
        (MongoStore.write cfg mongo cache M tokens now).cache
        (M.map Prod.fst)) k
      = getAssoc (stampETags tokens M) k)
    ∧ (∀ k, (getAssoc (MongoStore.read cfg
        (MongoStore.write cfg mongo cache M tokens now).mongo
        (MongoStore.write cfg mongo cache M tokens now).cache
        (M.map Prod.fst)) k).isSome ↔ k ∈ M.map Prod.fst) := by
  have hst : ((stampETags tokens M).map Prod.fst).Nodup := by
    rw [stampETags_map_fst]; exact hM
  have main : ∀ k, getAssoc (MongoStore.read cfg
      (MongoStore.write cfg mongo cache M tokens now).mongo
      (MongoStore.write cfg mongo cache M tokens now).cache
      (M.map Prod.fst)) k = getAssoc (stampETags tokens M) k := by
    intro k
    cases M with
    | nil =>
      simp [MongoStore.write, MongoStore.read, stampETags, stampETagsFrom, getAssoc]
    | cons hd tl =>
      have hMne : (hd :: tl : StoreItems).isEmpty = false := rfl
      have hkeysne : ((hd :: tl : StoreItems).map Prod.fst).isEmpty = false := rfl
      have hwmongo : (MongoStore.write cfg mongo cache (hd :: tl) tokens now).mongo
          = applyBulkWrite mongo (MongoStore.writeMongo cfg (hd :: tl) tokens now).2 := by
        simp [MongoStore.write, hMne]
      have hwmNodup :
          (((MongoStore.write cfg mongo cache (hd :: tl) tokens now).mongo).map Prod.fst).Nodup := by
        rw [hwmongo]
        exact applyBulkWrite_writeMongo_nodup cfg _ tokens now mongo hmongo
      by_cases hc : cfg.isCacheEnabled = true
      · -- cache enabled: the read is served from the cache tier alone
        have hwcache : (MongoStore.write cfg mongo cache (hd :: tl) tokens now).cache
            = MongoStore.writeRedis cfg cache (stampETags tokens (hd :: tl)) := by
          simp [MongoStore.write, hMne, hc, MongoStore.writeMongo]
        have hhit : ∀ k', k' ∈ (hd :: tl : StoreItems).map Prod.fst →
            (redisGet (MongoStore.write cfg mongo cache (hd :: tl) tokens now).cache k').isSome
              = true := by
          intro k' hk'
          rw [hwcache, redisGet_writeRedis cfg cache _ k' hst]
          have hsome : (getAssoc (stampETags tokens (hd :: tl)) k').isSome := by
            rw [getAssoc_isSome_iff, stampETags_map_fst]
            exact hk'
          cases hg : getAssoc (stampETags tokens (hd :: tl)) k' with
          | some v => rfl
          | none => rw [hg] at hsome; simp at hsome
        have hmiss : (MongoStore.readRedis
            (MongoStore.write cfg mongo cache (hd :: tl) tokens now).cache
            ((hd :: tl : StoreItems).map Prod.fst)).missing = [] := by
          rw [readRedis_missing]
          rw [List.filter_eq_nil_iff]
          intro a ha
          have := hhit a ha
          simp [Option.isNone, this]
          cases hg : redisGet (MongoStore.write cfg mongo cache (hd :: tl) tokens now).cache a with
          | some v => simp
          | none => rw [hg] at this; simp at this
        have hread : MongoStore.read cfg
            (MongoStore.write cfg mongo cache (hd :: tl) tokens now).mongo
            (MongoStore.write cfg mongo cache (hd :: tl) tokens now).cache
            ((hd :: tl : StoreItems).map Prod.fst)
            = objAssign [] (MongoStore.readRedis
                (MongoStore.write cfg mongo cache (hd :: tl) tokens now).cache
                ((hd :: tl : StoreItems).map Prod.fst)).cached := by
          have hmiss' := hmiss
          simp only [List.map_cons] at hmiss'
          simp [MongoStore.read, hkeysne, hc, hmiss, hmiss']
        rw [hread, getAssoc_objAssign,
          getLastAssoc_eq_getAssoc _ _ (readRedis_cached_nodup _ _),
          readRedis_cached_get]
        by_cases hk : k ∈ (hd :: tl : StoreItems).map Prod.fst
        · have hsome : (getAssoc (stampETags tokens (hd :: tl)) k).isSome := by
            rw [getAssoc_isSome_iff, stampETags_map_fst]
            exact hk
          cases hg : getAssoc (stampETags tokens (hd :: tl)) k with
          | none => rw [hg] at hsome; simp at hsome
          | some v =>
            have hrg : redisGet
                (MongoStore.write cfg mongo cache (hd :: tl) tokens now).cache k
                = some (JSON.stringify v) := by
              rw [hwcache, redisGet_writeRedis cfg cache _ k hst, hg]
            rw [if_pos ⟨hk, by rw [hrg]; rfl⟩, hrg]
            rfl
        · rw [if_neg (fun hcon => hk hcon.1)]
          have : getAssoc (stampETags tokens (hd :: tl)) k = none := by
            rw [getAssoc_eq_none_iff, stampETags_map_fst]
            exact hk
          rw [this]
          rfl
      · -- cache disabled: the read is served by one batched mongo lookup
        have hcf : cfg.isCacheEnabled = false := by
          cases hb : cfg.isCacheEnabled with
          | true => exact absurd hb hc
          | false => rfl
        have hread : MongoStore.read cfg
            (MongoStore.write cfg mongo cache (hd :: tl) tokens now).mongo
            (MongoStore.write cfg mongo cache (hd :: tl) tokens now).cache
            ((hd :: tl : StoreItems).map Prod.fst)
            = objAssign [] (MongoStore.readMongo
                (MongoStore.write cfg mongo cache (hd :: tl) tokens now).mongo
                ((hd :: tl : StoreItems).map Prod.fst)) := by
          simp [MongoStore.read, hkeysne, hcf]
        rw [hread, getAssoc_objAssign,
          getLastAssoc_eq_getAssoc _ _ (readMongo_nodup _ _),
          readMongo_get _ _ _ hwmNodup]
        by_cases hk : k ∈ (hd :: tl : StoreItems).map Prod.fst
        · have hsome : (getAssoc (stampETags tokens (hd :: tl)) k).isSome := by
            rw [getAssoc_isSome_iff, stampETags_map_fst]
            exact hk
          cases hg : getAssoc (stampETags tokens (hd :: tl)) k with
          | none => rw [hg] at hsome; simp at hsome
          | some v =>
            rw [if_pos hk, hwmongo,
              applyBulkWrite_writeMongo_get cfg _ tokens now mongo k hM, hg]
            rfl
        · rw [if_neg hk]
          have : getAssoc (stampETags tokens (hd :: tl)) k = none := by
            rw [getAssoc_eq_none_iff, stampETags_map_fst]
            exact hk
          rw [this]
          rfl
  refine ⟨main, fun k => ?_⟩
  rw [main k]
  rw [getAssoc_isSome_iff, stampETags_map_fst]

theorem getLastAssoc_eq_none_of_getAssoc {α : Type} (l : List (String × α)) (k : String)
    (h : getAssoc l k = none) : getLastAssoc l k = none :=
  (getLastAssoc_eq_none_iff l k).2 ((getAssoc_eq_none_iff l k).1 h)

theorem getAssoc_objAssign_none {α : Type} (t s : List (String × α)) (k : String)
    (h : getLastAssoc s k = none) : getAssoc (objAssign t s) k = getAssoc t k := by
  rw [getAssoc_objAssign, h]

theorem getAssoc_objAssign_some {α : Type} (t s : List (String × α)) (k : String)
    (v : α) (h : getLastAssoc s k = some v) : getAssoc (objAssign t s) k = some v := by
  rw [getAssoc_objAssign, h]

theorem applyBulkWrite_writeMongo_get_some (cfg : MongoStoreConfig) (M : StoreItems)
    (tokens : Nat → String) (now : Nat) (mongo : MongoState) (k : String) (v : Json)
    (hM : (M.map Prod.fst).Nodup) (hv : getAssoc (stampETags tokens M) k = some v) :
    getAssoc (applyBulkWrite mongo (MongoStore.writeMongo cfg M tokens now).2) k
      = some ⟨JSON.stringify v, now, Json.getField v "eTag"⟩ := by
  rw [applyBulkWrite_writeMongo_get cfg M tokens now mongo k hM, hv]

/-- C4: with the cache enabled, read performs per-key cache lookups for
all requested keys, returns the cached deserialized value for every key
the cache holds, collects exactly the cache-absent keys into the missing
set, issues one batched mongo lookup for exactly that set only when it
is non-empty and merges it in with cache priority; keys in neither tier
are absent from the result. -/
theorem mongoStore_read_cacheAside (cfg : MongoStoreConfig) (mongo : MongoState)
    (cache : RedisState) (keys : List String)
    (hc : cfg.isCacheEnabled = true) (hne : keys ≠ []) :
    MongoStore.readCacheCalls cfg keys = keys.map CacheCall.get
    ∧ (MongoStore.readRedis cache keys).missing
        = keys.filter (fun k => (redisGet cache k).isNone)
    ∧ (∀ k v, k ∈ keys → redisGet cache k = some v →
        getAssoc (MongoStore.read cfg mongo cache keys) k = some (JSON.parse v))
    ∧ ((MongoStore.readRedis cache keys).missing = [] →
        MongoStore.read cfg mongo cache keys
          = objAssign [] (MongoStore.readRedis cache keys).cached)
    ∧ ((MongoStore.readRedis cache keys).missing ≠ [] →
        MongoStore.read cfg mongo cache keys
          = objAssign (objAssign [] (MongoStore.readRedis cache keys).cached)
              (MongoStore.readMongo mongo (MongoStore.readRedis cache keys).missing))
    ∧ (∀ k, k ∈ keys → redisGet cache k = none →
        getAssoc (MongoStore.readMongo mongo (MongoStore.readRedis cache keys).missing) k
          = none →
        getAssoc (MongoStore.read cfg mongo cache keys) k = none)
    ∧ (∀ k, k ∉ keys → getAssoc (MongoStore.read cfg mongo cache keys) k = none) := by
  have hkne : keys.isEmpty = false := by
    cases keys with
    | nil => exact absurd rfl hne
    | cons a l => rfl
  have hreadEq : MongoStore.read cfg mongo cache keys
      = if (MongoStore.readRedis cache keys).missing.length > 0
        then objAssign (objAssign [] (MongoStore.readRedis cache keys).cached)
              (MongoStore.readMongo mongo (MongoStore.readRedis cache keys).missing)
        else objAssign [] (MongoStore.readRedis cache keys).cached := by
    simp [MongoStore.read, hkne, hc]
  refine ⟨?_, readRedis_missing cache keys, ?_, ?_, ?_, ?_, ?_⟩
  · simp [MongoStore.readCacheCalls, hkne, hc]
  · -- cache hits are returned deserialized, with cache priority
    intro k v hk hv
    have hkm : k ∉ (MongoStore.readRedis cache keys).missing := by
      rw [readRedis_missing]
      intro hmem
      have := (List.mem_filter.1 hmem).2
      rw [hv] at this
      simp at this
    have hmn : getAssoc (MongoStore.readMongo mongo
        (MongoStore.readRedis cache keys).missing) k = none :=
      readMongo_get_of_not_mem _ _ _ hkm
    have hcached : getLastAssoc (MongoStore.readRedis cache keys).cached k
        = some (JSON.parse v) := by
      rw [getLastAssoc_eq_getAssoc _ _ (readRedis_cached_nodup _ _), readRedis_cached_get]
      rw [if_pos ⟨hk, by rw [hv]; rfl⟩, hv]
      rfl
    rw [hreadEq]
    by_cases hm0 : (MongoStore.readRedis cache keys).missing.length > 0
    · rw [if_pos hm0,
        getAssoc_objAssign_none _ _ _ (getLastAssoc_eq_none_of_getAssoc _ _ hmn),
        getAssoc_objAssign_some _ _ _ _ hcached]
    · rw [if_neg hm0, getAssoc_objAssign_some _ _ _ _ hcached]
  · intro h0
    rw [hreadEq, h0]
    simp
  · intro hne0
    rw [hreadEq, if_pos (by simpa [List.length_pos] using hne0)]
  · -- keys found in neither tier are absent, never an error
    intro k hk hmiss hmongo_none
    have hcached : getLastAssoc (MongoStore.readRedis cache keys).cached k = none := by
      apply getLastAssoc_eq_none_of_getAssoc
      rw [readRedis_cached_get, if_neg]
      rintro ⟨_, hsome⟩
      rw [hmiss] at hsome
      simp at hsome
    have hinmiss : k ∈ (MongoStore.readRedis cache keys).missing := by
      rw [readRedis_missing]
      exact List.mem_filter.2 ⟨hk, by rw [hmiss]; rfl⟩
    have hm0 : (MongoStore.readRedis cache keys).missing.length > 0 :=
      List.length_pos.2 (List.ne_nil_of_mem hinmiss)
    rw [hreadEq, if_pos hm0,
      getAssoc_objAssign_none _ _ _ (getLastAssoc_eq_none_of_getAssoc _ _ hmongo_none),
      getAssoc_objAssign_none _ _ _ hcached]
    rfl
  · -- keys that were never requested are absent from the result
    intro k hk
    have hcached : getLastAssoc (MongoStore.readRedis cache keys).cached k = none := by
      apply getLastAssoc_eq_none_of_getAssoc
      rw [readRedis_cached_get, if_neg]
      rintro ⟨hmem, _⟩
      exact hk hmem
    have hkm : k ∉ (MongoStore.readRedis cache keys).missing := by
      rw [readRedis_missing]
      intro hmem
      exact hk (List.mem_filter.1 hmem).1
    have hmn : getAssoc (MongoStore.readMongo mongo
        (MongoStore.readRedis cache keys).missing) k = none :=
      readMongo_get_of_not_mem _ _ _ hkm
    rw [hreadEq]
    by_cases hm0 : (MongoStore.readRedis cache keys).missing.length > 0
    · rw [if_pos hm0,
        getAssoc_objAssign_none _ _ _ (getLastAssoc_eq_none_of_getAssoc _ _ hmn),
        getAssoc_objAssign_none _ _ _ hcached]
      rfl
    · rw [if_neg hm0, getAssoc_objAssign_none _ _ _ hcached]
      rfl

/-- The configuration produced by constructing the store with redis
options present and everything else defaulted. -/
def cfgCacheOn : MongoStoreConfig := ⟨"botstorage", "conversations", true, 1209600, false⟩

/-- The configuration produced by constructing the store with no redis
options and everything defaulted (no cache handle is ever assigned). -/
def cfgCacheOff : MongoStoreConfig := ⟨"botstorage", "conversations", false, 1209600, false⟩

/-- C1: with the cache tier not configured, delete on a non-empty key
set does NOT succeed: deleteRedis is invoked unconditionally (line 158)
and `this.cache.del` is a property access on the never-assigned redis
handle, so the call rejects with a TypeError even though the mongo
deleteMany it raced against does remove the keys from the durable
store. -/
theorem mongoStore_delete_cacheDisabled_rejects :
    (MongoStore.delete cfgCacheOff [("a", ⟨Json.obj [], 0, none⟩)] [] ["a"]).result
      = Except.error JsError.typeError
    ∧ (MongoStore.delete cfgCacheOff [("a", ⟨Json.obj [], 0, none⟩)] [] ["a"]).mongo
      = [] := by
  exact ⟨rfl, rfl⟩

/-- C2: health() does raise: the mongo ping is awaited with no try or
catch (line 245), so when that probe rejects the rejection propagates to
the caller instead of being downgraded to a boolean false. -/
theorem mongoStore_health_probeFailure_rejects :
    MongoStore.health cfgCacheOn
        (Except.error (JsError.backend "mongo ping failed")) (Except.ok "PONG")
      = Except.error (JsError.backend "mongo ping failed") := rfl

/-- C3: with caching disabled, health() does not skip the cache probe:
line 246 evaluates `this.rClient.ping()` unconditionally, and since no
redis handle was ever assigned the call throws a TypeError instead of
returning a result, even with the durable store healthy. -/
theorem mongoStore_health_cacheDisabled_throws :
    MongoStore.health cfgCacheOff (Except.ok ⟨true⟩) (Except.ok "PONG")
      = Except.error JsError.typeError := rfl

/-- C6 counterexample: the failure of one concurrent write operation is
reported to the caller, but NOT only after both operations have
settled: Promise.all rejects as soon as the failing operation settles
(time 0), before the sibling redis write settles (time 5). -/
theorem mongoStore_writeSettle_counterexample :
    (MongoStore.writeSettle cfgCacheOn
        ⟨0, Except.error (JsError.backend "bulkWrite failed")⟩
        ⟨5, Except.ok ()⟩).result
      = Except.error (JsError.backend "bulkWrite failed")
    ∧ ¬ (5 ≤ (MongoStore.writeSettle cfgCacheOn
        ⟨0, Except.error (JsError.backend "bulkWrite failed")⟩
        ⟨5, Except.ok ()⟩).time) := by
  refine ⟨rfl, ?_⟩
  intro h
  have : (MongoStore.writeSettle cfgCacheOn
      ⟨0, Except.error (JsError.backend "bulkWrite failed")⟩
      ⟨5, Except.ok ()⟩).time = 0 := rfl
  rw [this] at h
  omega

/-- C6 amended: with caching enabled, when exactly one of the two
concurrent operations of write fails, the call reports exactly that
failure to the caller (no silent partial success); it settles at the
failing operation settlement time, without waiting for the sibling
(Promise.all fail-fast rejection). -/
theorem mongoStore_writeSettle_failFast (cfg : MongoStoreConfig) (p q : SettledOp)
    (e : JsError) (hc : cfg.isCacheEnabled = true) :
    (p.result = Except.error e → q.result = Except.ok () →
      MongoStore.writeSettle cfg p q = ⟨p.time, Except.error e⟩)
    ∧ (p.result = Except.ok () → q.result = Except.error e →
      MongoStore.writeSettle cfg p q = ⟨q.time, Except.error e⟩) := by
  constructor <;> intro h1 h2 <;>
    simp [MongoStore.writeSettle, hc, promiseAll2, h1, h2]

/-- Witness for C6 amended at a concrete input: the mongo bulk write
rejects at time 0, the redis write resolves at time 7, and the call
settles at time 0 with the mongo failure. -/
theorem mongoStore_writeSettle_failFast_witness :
    cfgCacheOn.isCacheEnabled = true
    ∧ (((⟨0, Except.error (JsError.backend "mongo down")⟩ : SettledOp).result
          = Except.error (JsError.backend "mongo down") →
        ((⟨7, Except.ok ()⟩ : SettledOp).result = Except.ok ()) →
        MongoStore.writeSettle cfgCacheOn
            ⟨0, Except.error (JsError.backend "mongo down")⟩ ⟨7, Except.ok ()⟩
          = ⟨0, Except.error (JsError.backend "mongo down")⟩)
      ∧ (((⟨0, Except.error (JsError.backend "mongo down")⟩ : SettledOp).result
          = Except.ok ()) →
        ((⟨7, Except.ok ()⟩ : SettledOp).result
          = Except.error (JsError.backend "mongo down")) →
        MongoStore.writeSettle cfgCacheOn
            ⟨0, Except.error (JsError.backend "mongo down")⟩ ⟨7, Except.ok ()⟩
          = ⟨7, Except.error (JsError.backend "mongo down")⟩)) :=
  ⟨rfl, mongoStore_writeSettle_failFast cfgCacheOn
    ⟨0, Except.error (JsError.backend "mongo down")⟩ ⟨7, Except.ok ()⟩
    (JsError.backend "mongo down") rfl⟩

/-- C7: for every entry of a write, a fresh token from the ObjectId
stream is written into the payload eTag field before serialization,
overwriting any caller-supplied version; the serialized stamped payload
is what the upsert stores, replacing the stored document for that key
whatever the prior collection content was (no version comparison). -/
theorem mongoStore_writeMongo_freshETag (cfg : MongoStoreConfig) (changes : StoreItems)
    (tokens : Nat → String) (now : Nat) (mongo : MongoState)
    (hN : (changes.map Prod.fst).Nodup) (i : Nat) (hi : i < changes.length)
    (hobj : (changes.get ⟨i, hi⟩).2.isObj = true) :
    getAssoc (MongoStore.writeMongo cfg changes tokens now).1 (changes.get ⟨i, hi⟩).1
      = some (Json.setField (changes.get ⟨i, hi⟩).2 "eTag" (Json.str (tokens i)))
    ∧ Json.getField
        (Json.setField (changes.get ⟨i, hi⟩).2 "eTag" (Json.str (tokens i))) "eTag"
      = some (Json.str (tokens i))
    ∧ getAssoc (applyBulkWrite mongo (MongoStore.writeMongo cfg changes tokens now).2)
        (changes.get ⟨i, hi⟩).1
      = some ⟨JSON.stringify
                (Json.setField (changes.get ⟨i, hi⟩).2 "eTag" (Json.str (tokens i))),
              now, some (Json.str (tokens i))⟩ := by
  have h1 : getAssoc (stampETags tokens changes) (changes.get ⟨i, hi⟩).1
      = some (Json.setField (changes.get ⟨i, hi⟩).2 "eTag" (Json.str (tokens i))) := by
    have := stampETagsFrom_getAssoc tokens changes 0 i hN hi
    rwa [Nat.zero_add] at this
  refine ⟨h1, getField_setField _ _ _ hobj, ?_⟩
  rw [applyBulkWrite_writeMongo_get_some cfg changes tokens now mongo _ _ hN h1,
    getField_setField _ _ _ hobj]

/-- Witness for C7 at a concrete input: a one-entry write whose payload
already carries a caller-supplied eTag, which gets overwritten. -/
theorem mongoStore_writeMongo_freshETag_witness :
    (((([("a", Json.obj [("eTag", Json.str "old")])] : StoreItems).map Prod.fst).Nodup)
      ∧ 0 < ([("a", Json.obj [("eTag", Json.str "old")])] : StoreItems).length
      ∧ (Json.obj [("eTag", Json.str "old")]).isObj = true)
    ∧ (getAssoc (MongoStore.writeMongo cfgCacheOff
          [("a", Json.obj [("eTag", Json.str "old")])] (fun _ => "t0") 0).1 "a"
        = some (Json.setField (Json.obj [("eTag", Json.str "old")]) "eTag" (Json.str "t0"))
      ∧ Json.getField
          (Json.setField (Json.obj [("eTag", Json.str "old")]) "eTag" (Json.str "t0")) "eTag"
        = some (Json.str "t0")
      ∧ getAssoc (applyBulkWrite [("a", ⟨Json.str "prior", 99, none⟩)]
            (MongoStore.writeMongo cfgCacheOff
              [("a", Json.obj [("eTag", Json.str "old")])] (fun _ => "t0") 0).2) "a"
        = some ⟨JSON.stringify
                  (Json.setField (Json.obj [("eTag", Json.str "old")]) "eTag" (Json.str "t0")),
                0, some (Json.str "t0")⟩) :=
  ⟨⟨by simp, by simp, rfl⟩,
    mongoStore_writeMongo_freshETag cfgCacheOff
      [("a", Json.obj [("eTag", Json.str "old")])] (fun _ => "t0") 0
      [("a", ⟨Json.str "prior", 99, none⟩)] (by simp) 0 (by simp) rfl⟩

/-- C8: the durability mode of batched upserts and deletes follows the
disableWriteConcern flag with fast-by-default polarity: unset defaults
to false, false selects w 0 (no wait for replication), true selects
majority acknowledgment, and upserts and deletes make the same choice. -/
theorem mongoStore_writeConcern_fastByDefault (cfg : MongoStoreConfig)
    (changes : StoreItems) (tokens : Nat → String) (now : Nat) (keys : List String)
    (uri : String) (options : MongoStoreOptions)
    (hunset : options.disableWriteConcern = none) :
    (MongoStore.writeMongo cfg changes tokens now).2.writeConcern
      = (if cfg.disableWriteConcern then WriteConcern.majority else WriteConcern.w0)
    ∧ (MongoStore.deleteMongoCall cfg keys).writeConcern
      = (MongoStore.writeMongo cfg changes tokens now).2.writeConcern
    ∧ (∀ c, MongoStore.mkStore uri options = Except.ok c →
        c.disableWriteConcern = false) := by
  refine ⟨?_, rfl, ?_⟩
  · cases hb : cfg.disableWriteConcern <;>
      simp [MongoStore.writeMongo, MongoStore.writeConcernOf, hb]
  · intro c hok
    unfold MongoStore.mkStore at hok
    by_cases hu : uri.trim = ""
    · rw [if_pos hu] at hok
      exact Except.noConfusion hok
    · rw [if_neg hu] at hok
      have := Except.ok.inj hok
      rw [← this, hunset]
      rfl

/-- Witness for C8 at a concrete input: the safe-mode configuration for
the operation conjuncts, and an all-default construction for the
default conjunct. -/
theorem mongoStore_writeConcern_fastByDefault_witness :
    (⟨none, none, false, none, none⟩ : MongoStoreOptions).disableWriteConcern = none
    ∧ ((MongoStore.writeMongo ⟨"botstorage", "conversations", false, 1209600, true⟩
          [] (fun _ => "t0") 0).2.writeConcern
        = (if (⟨"botstorage", "conversations", false, 1209600, true⟩
              : MongoStoreConfig).disableWriteConcern
           then WriteConcern.majority else WriteConcern.w0)
      ∧ (MongoStore.deleteMongoCall
            ⟨"botstorage", "conversations", false, 1209600, true⟩ ["a"]).writeConcern
        = (MongoStore.writeMongo ⟨"botstorage", "conversations", false, 1209600, true⟩
            [] (fun _ => "t0") 0).2.writeConcern
      ∧ (∀ c, MongoStore.mkStore "mongodb://localhost:27017/"
            ⟨none, none, false, none, none⟩ = Except.ok c →
          c.disableWriteConcern = false)) :=
  ⟨rfl,
    mongoStore_writeConcern_fastByDefault
      ⟨"botstorage", "conversations", false, 1209600, true⟩ [] (fun _ => "t0") 0 ["a"]
      "mongodb://localhost:27017/" ⟨none, none, false, none, none⟩ rfl⟩

theorem foldl_applyCacheCall_gets (cache : RedisState) (keys : List String) :
    (keys.map CacheCall.get).foldl applyCacheCall cache = cache := by
  induction keys with
  | nil => rfl
  | cons a l ih => simpa [applyCacheCall] using ih

/-- C9: the read path never modifies the cache tier: every redis command
it issues is a get, so replaying the commands of any read over any
cache state leaves that state unchanged (no write-back on cache miss). -/
theorem mongoStore_read_neverWritesCache (cfg : MongoStoreConfig) (cache : RedisState)
    (keys : List String) :
    (MongoStore.readCacheCalls cfg keys).foldl applyCacheCall cache = cache := by
  unfold MongoStore.readCacheCalls
  by_cases h1 : keys.isEmpty
  · rw [if_pos h1]
    rfl
  · rw [if_neg h1]
    by_cases h2 : cfg.isCacheEnabled = true
    · rw [if_pos h2]
      exact foldl_applyCacheCall_gets cache keys
    · rw [if_neg h2]
      rfl

/-- C10: write mutates its caller-supplied argument: after the call the
changes object is the stamped object, each entry carrying the injected
token in its eTag field, and that mutated object is what is serialized
into both the durable store and the cache. -/
theorem mongoStore_write_mutatesCallerChanges (cfg : MongoStoreConfig)
    (changes : StoreItems) (tokens : Nat → String) (now : Nat)
    (mongo : MongoState) (cache : RedisState)
    (hc : cfg.isCacheEnabled = true) (hN : (changes.map Prod.fst).Nodup)
    (i : Nat) (hi : i < changes.length) :
    (MongoStore.write cfg mongo cache changes tokens now).changes
      = stampETags tokens changes
    ∧ getAssoc (MongoStore.write cfg mongo cache changes tokens now).changes
        (changes.get ⟨i, hi⟩).1
      = some (Json.setField (changes.get ⟨i, hi⟩).2 "eTag" (Json.str (tokens i)))
    ∧ (getAssoc (MongoStore.write cfg mongo cache changes tokens now).mongo
        (changes.get ⟨i, hi⟩).1).map MongoStoreDocument.state
      = some (JSON.stringify
          (Json.setField (changes.get ⟨i, hi⟩).2 "eTag" (Json.str (tokens i))))
    ∧ redisGet (MongoStore.write cfg mongo cache changes tokens now).cache
        (changes.get ⟨i, hi⟩).1
      = some (JSON.stringify
          (Json.setField (changes.get ⟨i, hi⟩).2 "eTag" (Json.str (tokens i)))) := by
  have hne : changes.isEmpty = false := by
    cases changes with
    | nil => simp at hi
    | cons a l => rfl
  have h1 : getAssoc (stampETags tokens changes) (changes.get ⟨i, hi⟩).1
      = some (Json.setField (changes.get ⟨i, hi⟩).2 "eTag" (Json.str (tokens i))) := by
    have := stampETagsFrom_getAssoc tokens changes 0 i hN hi
    rwa [Nat.zero_add] at this
  have hst : ((stampETags tokens changes).map Prod.fst).Nodup := by
    rw [stampETags_map_fst]; exact hN
  have hchg : (MongoStore.write cfg mongo cache changes tokens now).changes
      = stampETags tokens changes := by
    simp [MongoStore.write, hne, MongoStore.writeMongo]
  have hwmongo : (MongoStore.write cfg mongo cache changes tokens now).mongo
      = applyBulkWrite mongo (MongoStore.writeMongo cfg changes tokens now).2 := by
    simp [MongoStore.write, hne]
  have hwcache : (MongoStore.write cfg mongo cache changes tokens now).cache
      = MongoStore.writeRedis cfg cache (stampETags tokens changes) := by
    simp [MongoStore.write, hne, hc, MongoStore.writeMongo]
  refine ⟨hchg, by rw [hchg, h1], ?_, ?_⟩
  · rw [hwmongo, applyBulkWrite_writeMongo_get_some cfg changes tokens now mongo _ _ hN h1]
    rfl
  · rw [hwcache, redisGet_writeRedis cfg cache _ _ hst, h1]

/-- Witness for C4 at a concrete input: two requested keys, one cached,
one only in the durable store. -/
theorem mongoStore_read_cacheAside_witness :
    (cfgCacheOn.isCacheEnabled = true ∧ (["a", "b"] : List String) ≠ [])
    ∧ (MongoStore.readCacheCalls cfgCacheOn ["a", "b"]
        = (["a", "b"] : List String).map CacheCall.get
      ∧ (MongoStore.readRedis [("a", ⟨Json.num 1, 10⟩)] ["a", "b"]).missing
          = (["a", "b"] : List String).filter
              (fun k => (redisGet [("a", ⟨Json.num 1, 10⟩)] k).isNone)
      ∧ (∀ k v, k ∈ (["a", "b"] : List String) →
          redisGet [("a", ⟨Json.num 1, 10⟩)] k = some v →
          getAssoc (MongoStore.read cfgCacheOn [("b", ⟨Json.num 2, 0, none⟩)]
              [("a", ⟨Json.num 1, 10⟩)] ["a", "b"]) k = some (JSON.parse v))
      ∧ ((MongoStore.readRedis [("a", ⟨Json.num 1, 10⟩)] ["a", "b"]).missing = [] →
          MongoStore.read cfgCacheOn [("b", ⟨Json.num 2, 0, none⟩)]
              [("a", ⟨Json.num 1, 10⟩)] ["a", "b"]
            = objAssign [] (MongoStore.readRedis [("a", ⟨Json.num 1, 10⟩)] ["a", "b"]).cached)
      ∧ ((MongoStore.readRedis [("a", ⟨Json.num 1, 10⟩)] ["a", "b"]).missing ≠ [] →
          MongoStore.read cfgCacheOn [("b", ⟨Json.num 2, 0, none⟩)]
              [("a", ⟨Json.num 1, 10⟩)] ["a", "b"]
            = objAssign
                (objAssign [] (MongoStore.readRedis [("a", ⟨Json.num 1, 10⟩)] ["a", "b"]).cached)
                (MongoStore.readMongo [("b", ⟨Json.num 2, 0, none⟩)]
                  (MongoStore.readRedis [("a", ⟨Json.num 1, 10⟩)] ["a", "b"]).missing))
      ∧ (∀ k, k ∈ (["a", "b"] : List String) →
          redisGet [("a", ⟨Json.num 1, 10⟩)] k = none →
          getAssoc (MongoStore.readMongo [("b", ⟨Json.num 2, 0, none⟩)]
              (MongoStore.readRedis [("a", ⟨Json.num 1, 10⟩)] ["a", "b"]).missing) k = none →
          getAssoc (MongoStore.read cfgCacheOn [("b", ⟨Json.num 2, 0, none⟩)]
              [("a", ⟨Json.num 1, 10⟩)] ["a", "b"]) k = none)
      ∧ (∀ k, k ∉ (["a", "b"] : List String) →
          getAssoc (MongoStore.read cfgCacheOn [("b", ⟨Json.num 2, 0, none⟩)]
              [("a", ⟨Json.num 1, 10⟩)] ["a", "b"]) k = none)) :=
  ⟨⟨rfl, by simp⟩,
    mongoStore_read_cacheAside cfgCacheOn [("b", ⟨Json.num 2, 0, none⟩)]
      [("a", ⟨Json.num 1, 10⟩)] ["a", "b"] rfl (by simp)⟩

/-- Witness for C5 at a concrete input: a one-entry mapping written and
read back through a cache-enabled store over empty backends. -/
theorem mongoStore_write_read_roundtrip_witness :
    ((([("a", Json.obj [])] : StoreItems).map Prod.fst).Nodup
      ∧ (([] : MongoState).map Prod.fst).Nodup)
    ∧ ((∀ k, getAssoc (MongoStore.read cfgCacheOn
          (MongoStore.write cfgCacheOn [] [] [("a", Json.obj [])] (fun _ => "t0") 0).mongo
          (MongoStore.write cfgCacheOn [] [] [("a", Json.obj [])] (fun _ => "t0") 0).cache
          (([("a", Json.obj [])] : StoreItems).map Prod.fst)) k
        = getAssoc (stampETags (fun _ => "t0") [("a", Json.obj [])]) k)
      ∧ (∀ k, (getAssoc (MongoStore.read cfgCacheOn
          (MongoStore.write cfgCacheOn [] [] [("a", Json.obj [])] (fun _ => "t0") 0).mongo
          (MongoStore.write cfgCacheOn [] [] [("a", Json.obj [])] (fun _ => "t0") 0).cache
          (([("a", Json.obj [])] : StoreItems).map Prod.fst)) k).isSome
        ↔ k ∈ ([("a", Json.obj [])] : StoreItems).map Prod.fst)) :=
  ⟨⟨by simp, by simp⟩,
    mongoStore_write_read_roundtrip cfgCacheOn [] [] [("a", Json.obj [])]
      (fun _ => "t0") 0 (by simp) (by simp)⟩

/-- Witness for C10 at a concrete input: a one-entry cache-enabled
write; the returned changes object carries the injected token and both
tiers store its serialization. -/
theorem mongoStore_write_mutatesCallerChanges_witness :
    (cfgCacheOn.isCacheEnabled = true
      ∧ (([("a", Json.obj [])] : StoreItems).map Prod.fst).Nodup
      ∧ 0 < ([("a", Json.obj [])] : StoreItems).length)
    ∧ ((MongoStore.write cfgCacheOn [] [] [("a", Json.obj [])] (fun _ => "t0") 0).changes
        = stampETags (fun _ => "t0") [("a", Json.obj [])]
      ∧ getAssoc
          (MongoStore.write cfgCacheOn [] [] [("a", Json.obj [])] (fun _ => "t0") 0).changes "a"
        = some (Json.setField (Json.obj []) "eTag" (Json.str "t0"))
      ∧ (getAssoc
          (MongoStore.write cfgCacheOn [] [] [("a", Json.obj [])] (fun _ => "t0") 0).mongo
          "a").map MongoStoreDocument.state
        = some (JSON.stringify (Json.setField (Json.obj []) "eTag" (Json.str "t0")))
      ∧ redisGet
          (MongoStore.write cfgCacheOn [] [] [("a", Json.obj [])] (fun _ => "t0") 0).cache "a"
        = some (JSON.stringify (Json.setField (Json.obj []) "eTag" (Json.str "t0")))) :=
  ⟨⟨rfl, by simp, by simp⟩,
    mongoStore_write_mutatesCallerChanges cfgCacheOn [("a", Json.obj [])]
      (fun _ => "t0") 0 [] [] rfl (by simp) 0 (by simp)⟩
